import Mathlib

/-!
Shallow embedding of the expense-sharing ledger of `DAY29/LLDD85.CPP`
(classes `Group` and `Splitwise`), together with proofs settling the claims
about it.

Modelling conventions:
- C++ `double` amounts are modelled as `ℚ`; the source performs no rounding,
  so exact rational arithmetic mirrors its arithmetic structure.
- `Group::balances` (a `map<string, map<string, double>>`) is modelled by the
  set of outer keys (`rows`, the keys created by `addMember`) together with a
  total function `bal : String → String → ℚ`; a key absent from an inner map
  reads as `0`, exactly as `operator[]` default-insertion makes it behave.
- An out-of-range `vector::operator[]` access (undefined behavior in C++) is
  modelled by `Option`: `none` means the out-of-range branch was taken.
-/

namespace Splitwise

/-- `enum class SplitType` from the source. -/
inductive SplitType
  | EQUAL
  | EXACT
  | PERCENTAGE
deriving DecidableEq

/-- `class Split`: one (userId, amount) share. -/
structure Split where
  userId : String
  amount : ℚ
deriving DecidableEq

/-- `class Group`: the members vector (by userId; display names play no role in
the ledger arithmetic) and the debt matrix `balances`. `rows` is the key set of
the outer map; `bal` reads an entry, absent entries reading as `0`. -/
structure Group where
  members : List String
  rows : List String
  bal : String → String → ℚ

/-- A freshly constructed group: no members, empty matrix. -/
def Group.init : Group :=
  { members := [], rows := [], bal := fun _ _ => 0 }

/-- `Group::isMember`: outer-map key lookup. -/
def Group.isMember (g : Group) (userId : String) : Prop :=
  userId ∈ g.rows

instance (g : Group) (userId : String) : Decidable (g.isMember userId) :=
  inferInstanceAs (Decidable (userId ∈ g.rows))

/-- `Group::addMember`: unconditionally pushes onto `members` and assigns
`balances[userId] = ({})`, which creates the outer key if absent and resets the
member's whole inner row to empty. -/
def Group.addMember (g : Group) (userId : String) : Group :=
  { members := g.members ++ [userId]
    rows := if userId ∈ g.rows then g.rows else g.rows ++ [userId]
    bal := fun a b => if a = userId then 0 else g.bal a b }

/-- `Group::allMembersExist`. -/
def Group.allMembersExist (g : Group) (userIds : List String) : Prop :=
  ∀ u ∈ userIds, g.isMember u

instance (g : Group) (userIds : List String) : Decidable (g.allMembersExist userIds) :=
  inferInstanceAs (Decidable (∀ u ∈ userIds, u ∈ g.rows))

/-- The `EXACT` loop of `Group::addExpense`: `splits.emplace_back(users[i],
values[i])` for each `i < users.size()`. `none` models the out-of-range
`values[i]` access (undefined behavior) that occurs when `values` is shorter
than `users`; entries of `values` beyond `users.size()` are never read. -/
def exactSplits : List String → List ℚ → Option (List Split)
  | [], _ => some []
  | _ :: _, [] => none
  | u :: us, v :: vs => (exactSplits us vs).map (fun rest => ⟨u, v⟩ :: rest)

/-- The `PERCENTAGE` loop of `Group::addExpense`: shares are
`amount * values[i] / 100.0`; out-of-range reads are `none` as in
`exactSplits`. -/
def percentageSplits (amount : ℚ) : List String → List ℚ → Option (List Split)
  | [], _ => some []
  | _ :: _, [] => none
  | u :: us, v :: vs =>
      (percentageSplits amount us vs).map (fun rest => ⟨u, amount * v / 100⟩ :: rest)

/-- The split-construction part of `Group::addExpense` (the three policy
branches). `EQUAL` divides the amount by `users.size()`; the C++ quotient for
an empty list is the unused value `inf`, here the unused value `0`. -/
def computeSplits (amount : ℚ) (users : List String) (type : SplitType)
    (values : List ℚ) : Option (List Split) :=
  match type with
  | .EQUAL => some (users.map (fun u => ⟨u, amount / (users.length : ℚ)⟩))
  | .EXACT => exactSplits users values
  | .PERCENTAGE => percentageSplits amount users values

/-- One iteration of the application loop of `Group::addExpense`: splits whose
participant is the payer are skipped; otherwise
`balances[paidBy][split.userId] += split.amount` and
`balances[split.userId][paidBy] -= split.amount`. -/
def applySplit (g : Group) (paidBy : String) (s : Split) : Group :=
  if s.userId = paidBy then g
  else
    { g with bal := fun a b =>
        if a = paidBy ∧ b = s.userId then g.bal a b + s.amount
        else if a = s.userId ∧ b = paidBy then g.bal a b - s.amount
        else g.bal a b }

/-- The full application loop of `Group::addExpense`. -/
def applySplits (g : Group) (paidBy : String) : List Split → Group
  | [] => g
  | s :: rest => applySplits (applySplit g paidBy s) paidBy rest

/-- Outcome of `Group::addExpense`: either the expense is applied, or the
single rejection path ("Invalid users in expense!") is taken. -/
inductive ExpenseResult
  | ok
  | invalidUsers
deriving DecidableEq

/-- `Group::addExpense`. The description is printed only, hence unused. -/
def Group.addExpense (g : Group) (_desc : String) (amount : ℚ) (paidBy : String)
    (users : List String) (type : SplitType) (values : List ℚ) :
    Option (ExpenseResult × Group) :=
  if ¬(g.isMember paidBy ∧ g.allMembersExist users) then some (.invalidUsers, g)
  else
    match computeSplits amount users type values with
    | none => none
    | some splits => some (.ok, applySplits g paidBy splits)

/-- Outcome of `Group::settlePayment`: applied, or the "Invalid users!"
rejection. -/
inductive SettleResult
  | ok
  | invalidUsers
deriving DecidableEq

/-- One `balances[a][b] += d` update. -/
def bump (bal : String → String → ℚ) (a b : String) (d : ℚ) :
    String → String → ℚ :=
  fun x y => if x = a ∧ y = b then bal x y + d else bal x y

/-- `Group::settlePayment`: after the membership check it applies
`balances[fromUserId][toUserId] += amount` and then
`balances[toUserId][fromUserId] -= amount`, with no check on `amount`. -/
def Group.settlePayment (g : Group) (fromUserId toUserId : String) (amount : ℚ) :
    SettleResult × Group :=
  if g.isMember fromUserId ∧ g.isMember toUserId then
    (.ok,
      { g with bal := bump (bump g.bal fromUserId toUserId amount) toUserId fromUserId (-amount) })
  else (.invalidUsers, g)

/-- The filter of `Group::showBalances`: an inner entry is printed when
`balance > 0` (as "... owes ...") or `balance < 0` (as "Owes ..."), and
skipped otherwise. -/
def Group.entryShown (g : Group) (userId otherId : String) : Bool :=
  if g.bal userId otherId > 0 then true
  else if g.bal userId otherId < 0 then true
  else false

/-- A public operation on one group, as routed by the `Splitwise` facade. -/
inductive Op
  | addMember (userId : String)
  | addExpense (desc : String) (amount : ℚ) (paidBy : String)
      (users : List String) (type : SplitType) (values : List ℚ)
  | settle (fromUserId toUserId : String) (amount : ℚ)

/-- Apply one public operation; `none` only for the undefined-behavior path of
`addExpense`. -/
def step (g : Group) : Op → Option Group
  | .addMember u => some (g.addMember u)
  | .addExpense desc amount paidBy users type values =>
      (g.addExpense desc amount paidBy users type values).map Prod.snd
  | .settle f t amount => some (g.settlePayment f t amount).2

/-- Run a sequence of public operations. -/
def runOps : Group → List Op → Option Group
  | g, [] => some g
  | g, op :: rest => (step g op).bind (fun g' => runOps g' rest)

/-- Reachability of a group state by public operations from a fresh group. -/
def Reachable (g : Group) : Prop :=
  ∃ ops : List Op, runOps Group.init ops = some g

/-- Like `step`, but refusing to `addMember` an existing member (the
restriction under which the antisymmetry invariant survives). -/
def stepFresh (g : Group) : Op → Option Group
  | .addMember u => if u ∈ g.rows then none else some (g.addMember u)
  | .addExpense desc amount paidBy users type values =>
      (g.addExpense desc amount paidBy users type values).map Prod.snd
  | .settle f t amount => some (g.settlePayment f t amount).2

/-- Run a sequence of public operations, never re-adding an existing member. -/
def runOpsFresh : Group → List Op → Option Group
  | g, [] => some g
  | g, op :: rest => (stepFresh g op).bind (fun g' => runOpsFresh g' rest)

/-- Net contribution of the application loop to the cell `(x, y)`. -/
def splitDelta (paidBy x y : String) : List Split → ℚ
  | [] => 0
  | s :: rest =>
      (if s.userId ≠ paidBy ∧ x = paidBy ∧ y = s.userId then s.amount else 0)
        + (if s.userId ≠ paidBy ∧ x = s.userId ∧ y = paidBy then -s.amount else 0)
        + splitDelta paidBy x y rest

theorem isSome_map {α β : Type} (f : α → β) (o : Option α) :
    (o.map f).isSome = o.isSome := by
  cases o <;> rfl

theorem applySplit_bal (g : Group) (paidBy : String) (s : Split) (x y : String) :
    (applySplit g paidBy s).bal x y =
      g.bal x y + (if s.userId ≠ paidBy ∧ x = paidBy ∧ y = s.userId then s.amount else 0)
        + (if s.userId ≠ paidBy ∧ x = s.userId ∧ y = paidBy then -s.amount else 0) := by
  by_cases hu : s.userId = paidBy
  · simp [applySplit, hu]
  · by_cases hA : x = paidBy ∧ y = s.userId
    · have hB : ¬(x = s.userId ∧ y = paidBy) := by
        rintro ⟨hx, -⟩
        exact hu (hx.symm.trans hA.1)
      simp [applySplit, hu, hA, hB]
    · by_cases hB : x = s.userId ∧ y = paidBy
      · simp only [applySplit, if_neg hu, if_neg hA, if_pos hB, ite_self]
        simp [hu, hB]
        ring
      · simp [applySplit, hu, hA, hB]

theorem applySplit_members (g : Group) (paidBy : String) (s : Split) :
    (applySplit g paidBy s).members = g.members := by
  unfold applySplit
  split_ifs <;> rfl

theorem applySplit_rows (g : Group) (paidBy : String) (s : Split) :
    (applySplit g paidBy s).rows = g.rows := by
  unfold applySplit
  split_ifs <;> rfl

theorem applySplits_bal (paidBy x y : String) :
    ∀ (ss : List Split) (g : Group),
      (applySplits g paidBy ss).bal x y = g.bal x y + splitDelta paidBy x y ss
  | [], g => by simp [applySplits, splitDelta]
  | s :: rest, g => by
      rw [applySplits, applySplits_bal paidBy x y rest, applySplit_bal, splitDelta]
      ring

theorem applySplits_members (paidBy : String) :
    ∀ (ss : List Split) (g : Group), (applySplits g paidBy ss).members = g.members
  | [], g => rfl
  | s :: rest, g => by
      rw [applySplits, applySplits_members paidBy rest, applySplit_members]

theorem applySplits_rows (paidBy : String) :
    ∀ (ss : List Split) (g : Group), (applySplits g paidBy ss).rows = g.rows
  | [], g => rfl
  | s :: rest, g => by
      rw [applySplits, applySplits_rows paidBy rest, applySplit_rows]

theorem splitDelta_antisymm (paidBy x y : String) :
    ∀ ss : List Split, splitDelta paidBy x y ss + splitDelta paidBy y x ss = 0
  | [] => by simp [splitDelta]
  | s :: rest => by
      have ih := splitDelta_antisymm paidBy x y rest
      unfold splitDelta
      split_ifs <;> simp_all <;> ring_nf <;> simp_all

theorem splitDelta_not_payer (paidBy x y : String) (hx : x ≠ paidBy) (hy : y ≠ paidBy) :
    ∀ ss : List Split, splitDelta paidBy x y ss = 0
  | [] => rfl
  | s :: rest => by
      unfold splitDelta
      rw [splitDelta_not_payer paidBy x y hx hy rest]
      split_ifs <;> simp_all

theorem splitDelta_equal_row (paidBy q : String) (share : ℚ) (hq : q ≠ paidBy) :
    ∀ users : List String,
      splitDelta paidBy paidBy q (users.map (fun u => ⟨u, share⟩)) =
        (users.count q : ℚ) * share
  | [] => by simp [splitDelta]
  | u :: us => by
      have ih := splitDelta_equal_row paidBy q share hq us
      simp only [List.map_cons, splitDelta]
      rw [ih]
      by_cases hu : u = q
      · subst hu
        rw [List.count_cons_self]
        simp [hq]
        ring
      · rw [List.count_cons_of_ne (fun h => hu h.symm)]
        simp [Ne.symm hu, hq]

theorem exactSplits_isSome :
    ∀ (users : List String) (values : List ℚ),
      (exactSplits users values).isSome ↔ users.length ≤ values.length
  | [], values => by simp [exactSplits]
  | u :: us, [] => by simp [exactSplits]
  | u :: us, v :: vs => by
      simp only [exactSplits, isSome_map, List.length_cons, Nat.succ_le_succ_iff]
      exact exactSplits_isSome us vs

theorem percentageSplits_isSome (amount : ℚ) :
    ∀ (users : List String) (values : List ℚ),
      (percentageSplits amount users values).isSome ↔ users.length ≤ values.length
  | [], values => by simp [percentageSplits]
  | u :: us, [] => by simp [percentageSplits]
  | u :: us, v :: vs => by
      simp only [percentageSplits, isSome_map, List.length_cons, Nat.succ_le_succ_iff]
      exact percentageSplits_isSome amount us vs

theorem exactSplits_mem :
    ∀ (users : List String) (values : List ℚ) (ss : List Split),
      exactSplits users values = some ss → ∀ s ∈ ss, s.userId ∈ users
  | [], values, ss => by
      intro h s hs
      simp only [exactSplits, Option.some_inj] at h
      subst h
      simp at hs
  | u :: us, [], ss => by
      intro h
      simp [exactSplits] at h
  | u :: us, v :: vs, ss => by
      intro h s hs
      rw [exactSplits] at h
      cases hr : exactSplits us vs with
      | none => rw [hr] at h; simp at h
      | some rest =>
          rw [hr, Option.map_some'] at h
          cases h
          rcases List.mem_cons.mp hs with rfl | hmem
          · exact List.mem_cons_self u us
          · exact List.mem_cons_of_mem _ (exactSplits_mem us vs rest hr s hmem)

theorem percentageSplits_mem (amount : ℚ) :
    ∀ (users : List String) (values : List ℚ) (ss : List Split),
      percentageSplits amount users values = some ss → ∀ s ∈ ss, s.userId ∈ users
  | [], values, ss => by
      intro h s hs
      simp only [percentageSplits, Option.some_inj] at h
      subst h
      simp at hs
  | u :: us, [], ss => by
      intro h
      simp [percentageSplits] at h
  | u :: us, v :: vs, ss => by
      intro h s hs
      rw [percentageSplits] at h
      cases hr : percentageSplits amount us vs with
      | none => rw [hr] at h; simp at h
      | some rest =>
          rw [hr, Option.map_some'] at h
          cases h
          rcases List.mem_cons.mp hs with rfl | hmem
          · exact List.mem_cons_self u us
          · exact List.mem_cons_of_mem _ (percentageSplits_mem amount us vs rest hr s hmem)

theorem computeSplits_mem (amount : ℚ) (users : List String) (type : SplitType)
    (values : List ℚ) (ss : List Split) (h : computeSplits amount users type values = some ss) :
    ∀ s ∈ ss, s.userId ∈ users := by
  cases type with
  | EQUAL =>
      simp only [computeSplits, Option.some_inj] at h
      subst h
      intro s hs
      simp only [List.mem_map] at hs
      obtain ⟨u, hu, rfl⟩ := hs
      exact hu
  | EXACT => exact exactSplits_mem users values ss h
  | PERCENTAGE => exact percentageSplits_mem amount users values ss h

theorem settle_bal (g : Group) (f t : String) (amount : ℚ) (x y : String)
    (h : g.isMember f ∧ g.isMember t) :
    (g.settlePayment f t amount).2.bal x y =
      g.bal x y + (if x = f ∧ y = t then amount else 0)
        + (if x = t ∧ y = f then -amount else 0) := by
  simp only [Group.settlePayment, if_pos h, bump]
  split_ifs <;> ring

theorem settle_rows (g : Group) (f t : String) (amount : ℚ) :
    (g.settlePayment f t amount).2.rows = g.rows := by
  unfold Group.settlePayment
  split_ifs <;> rfl

theorem settle_members (g : Group) (f t : String) (amount : ℚ) :
    (g.settlePayment f t amount).2.members = g.members := by
  unfold Group.settlePayment
  split_ifs <;> rfl

/-- The inductive invariant behind the antisymmetry claim: every mirrored pair
of matrix cells sums to zero exactly, and cells of non-members are zero. -/
def Inv (g : Group) : Prop :=
  (∀ x y, g.bal x y + g.bal y x = 0) ∧
    (∀ x y, x ∉ g.rows → g.bal x y = 0 ∧ g.bal y x = 0)

theorem inv_init : Inv Group.init := by
  constructor
  · intro x y
    simp [Group.init]
  · intro x y _
    simp [Group.init]

theorem addMember_mem_rows (g : Group) (u : String) : u ∈ (g.addMember u).rows := by
  simp only [Group.addMember]
  split_ifs with h
  · exact h
  · simp

theorem addMember_rows_mono (g : Group) (u x : String) (hx : x ∈ g.rows) :
    x ∈ (g.addMember u).rows := by
  simp only [Group.addMember]
  split_ifs with h
  · exact hx
  · simp [hx]

theorem inv_addMember_fresh (g : Group) (u : String) (h : Inv g) (hu : u ∉ g.rows) :
    Inv (g.addMember u) := by
  constructor
  · intro x y
    simp only [Group.addMember]
    by_cases hx : x = u <;> by_cases hy : y = u <;>
      simp [hx, hy, (h.2 u y hu).2, (h.2 u x hu).2, h.1 x y]
  · intro x y hx
    have hxu : x ≠ u := by
      intro e
      exact hx (e ▸ addMember_mem_rows g u)
    have hxold : x ∉ g.rows := fun e => hx (addMember_rows_mono g u x e)
    constructor
    · simp only [Group.addMember, if_neg hxu]
      exact (h.2 x y hxold).1
    · simp only [Group.addMember]
      by_cases hy : y = u
      · simp [hy]
      · simp only [if_neg hy]
        exact (h.2 x y hxold).2

theorem inv_applySplit (g : Group) (paidBy : String) (s : Split) (h : Inv g)
    (hp : paidBy ∈ g.rows) (hs : s.userId ∈ g.rows) : Inv (applySplit g paidBy s) := by
  constructor
  · intro x y
    rw [applySplit_bal, applySplit_bal]
    have hxy := h.1 x y
    split_ifs <;> first | tauto | linarith
  · intro x y hx
    rw [applySplit_rows] at hx
    have hxp : x ≠ paidBy := fun e => hx (e ▸ hp)
    have hxu : x ≠ s.userId := fun e => hx (e ▸ hs)
    constructor
    · rw [applySplit_bal, if_neg (fun hc => hxp hc.2.1), if_neg (fun hc => hxu hc.2.1)]
      simp [(h.2 x y hx).1]
    · rw [applySplit_bal, if_neg (fun hc => hxu hc.2.2), if_neg (fun hc => hxp hc.2.2)]
      simp [(h.2 x y hx).2]

theorem inv_applySplits (paidBy : String) :
    ∀ (ss : List Split) (g : Group), Inv g → paidBy ∈ g.rows →
      (∀ s ∈ ss, s.userId ∈ g.rows) → Inv (applySplits g paidBy ss)
  | [], g => fun h _ _ => h
  | s :: rest, g => by
      intro h hp hss
      rw [applySplits]
      refine inv_applySplits paidBy rest (applySplit g paidBy s) ?_ ?_ ?_
      · exact inv_applySplit g paidBy s h hp (hss s (List.mem_cons_self s rest))
      · rw [applySplit_rows]
        exact hp
      · intro s' hs'
        rw [applySplit_rows]
        exact hss s' (List.mem_cons_of_mem s hs')

theorem inv_addExpense (g : Group) (desc : String) (amount : ℚ) (paidBy : String)
    (users : List String) (type : SplitType) (values : List ℚ)
    (r : ExpenseResult) (g' : Group) (h : Inv g)
    (he : g.addExpense desc amount paidBy users type values = some (r, g')) : Inv g' := by
  unfold Group.addExpense at he
  by_cases hcond : g.isMember paidBy ∧ g.allMembersExist users
  · rw [if_neg (not_not_intro hcond)] at he
    obtain ⟨hp, hall⟩ := hcond
    cases hsp : computeSplits amount users type values with
    | none =>
        rw [hsp] at he
        exact absurd he (by simp)
    | some splits =>
        rw [hsp] at he
        simp only [Option.some_inj, Prod.mk.injEq] at he
        obtain ⟨-, rfl⟩ := he
        refine inv_applySplits paidBy splits g h hp ?_
        intro s hsmem
        exact hall s.userId (computeSplits_mem amount users type values splits hsp s hsmem)
  · rw [if_pos hcond] at he
    simp only [Option.some_inj, Prod.mk.injEq] at he
    obtain ⟨-, rfl⟩ := he
    exact h

theorem inv_settle (g : Group) (f t : String) (amount : ℚ) (h : Inv g) :
    Inv (g.settlePayment f t amount).2 := by
  by_cases hm : g.isMember f ∧ g.isMember t
  · constructor
    · intro x y
      rw [settle_bal g f t amount x y hm, settle_bal g f t amount y x hm]
      have hxy := h.1 x y
      split_ifs <;> first | tauto | linarith
    · intro x y hx
      rw [settle_rows] at hx
      have hxf : x ≠ f := fun e => hx (e ▸ hm.1)
      have hxt : x ≠ t := fun e => hx (e ▸ hm.2)
      constructor
      · rw [settle_bal g f t amount x y hm, if_neg (fun hc => hxf hc.1),
          if_neg (fun hc => hxt hc.1)]
        simp [(h.2 x y hx).1]
      · rw [settle_bal g f t amount y x hm, if_neg (fun hc => hxt hc.2),
          if_neg (fun hc => hxf hc.2)]
        simp [(h.2 x y hx).2]
  · simp only [Group.settlePayment, if_neg hm]
    exact h

theorem inv_stepFresh (g : Group) (op : Op) (g' : Group) (h : Inv g)
    (hstep : stepFresh g op = some g') : Inv g' := by
  cases op with
  | addMember u =>
      simp only [stepFresh] at hstep
      split_ifs at hstep with hmem
      · cases hstep
        exact inv_addMember_fresh g u h hmem
  | addExpense desc amount paidBy users type values =>
      simp only [stepFresh] at hstep
      cases he : g.addExpense desc amount paidBy users type values with
      | none =>
          rw [he] at hstep
          simp at hstep
      | some p =>
          rw [he, Option.map_some'] at hstep
          cases hstep
          exact inv_addExpense g desc amount paidBy users type values p.1 p.2 h
            (by simpa using he)
  | settle f t amount =>
      simp only [stepFresh] at hstep
      cases hstep
      exact inv_settle g f t amount h

theorem runOpsFresh_inv :
    ∀ (ops : List Op) (g g' : Group), Inv g → runOpsFresh g ops = some g' → Inv g'
  | [], g, g' => by
      intro h hrun
      rw [runOpsFresh] at hrun
      cases hrun
      exact h
  | op :: rest, g, g' => by
      intro h hrun
      rw [runOpsFresh] at hrun
      cases hs : stepFresh g op with
      | none =>
          rw [hs] at hrun
          simp at hrun
      | some g1 =>
          rw [hs] at hrun
          simp only [Option.some_bind] at hrun
          exact runOpsFresh_inv rest g1 g' (inv_stepFresh g op g1 h hs) hrun

/-- Concrete two-member group used by the concrete scenarios. -/
def twoMemberGroup : Group := (Group.init.addMember "a").addMember "b"

/-- The Hostel scenario group with four members. -/
def hostelGroup : Group :=
  (((Group.init.addMember "u1").addMember "u2").addMember "u3").addMember "u4"

/-- C4: any `addExpense` whose payer or listed participant is not a member is
rejected on the single invalid-users path and returns the group state exactly
unchanged (the check precedes any split computation or matrix write). -/
theorem addExpense_invalid_users_rejected (g : Group) (desc : String) (amount : ℚ)
    (paidBy : String) (users : List String) (type : SplitType) (values : List ℚ)
    (h : ¬g.isMember paidBy ∨ ¬g.allMembersExist users) :
    g.addExpense desc amount paidBy users type values = some (.invalidUsers, g) := by
  unfold Group.addExpense
  rw [if_pos (by tauto)]

theorem addExpense_invalid_users_rejected_witness :
    (¬twoMemberGroup.isMember "uX" ∨ ¬twoMemberGroup.allMembersExist ["a"]) ∧
      twoMemberGroup.addExpense "Ghost" 100 "uX" ["a"] SplitType.EQUAL []
        = some (.invalidUsers, twoMemberGroup) :=
  ⟨Or.inl (by decide),
    addExpense_invalid_users_rejected twoMemberGroup "Ghost" 100 "uX" ["a"]
      SplitType.EQUAL [] (Or.inl (by decide))⟩

/-- C5 (amended): an `addExpense` with an empty participant list passes the
membership check vacuously and is accepted with outcome `ok` under every
policy; the split list is empty, so the group is returned unchanged (the
`EQUAL` branch computes `amount / 0`, whose value is never applied). It is not
rejected. -/
theorem addExpense_empty_noop (g : Group) (desc : String) (amount : ℚ)
    (paidBy : String) (type : SplitType) (values : List ℚ)
    (h : g.isMember paidBy) :
    g.addExpense desc amount paidBy [] type values = some (.ok, g) := by
  unfold Group.addExpense
  rw [if_neg (not_not_intro ⟨h, fun u hu => absurd hu (List.not_mem_nil u)⟩)]
  cases type <;> rfl

theorem addExpense_empty_noop_witness :
    twoMemberGroup.isMember "a" ∧
      twoMemberGroup.addExpense "Skip" 100 "a" [] SplitType.PERCENTAGE []
        = some (.ok, twoMemberGroup) :=
  ⟨by decide,
    addExpense_empty_noop twoMemberGroup "Skip" 100 "a" SplitType.PERCENTAGE [] (by decide)⟩

/-- C5 (counterexample): the spec says an empty participant list is rejected
as InvalidSplit; the code instead accepts it (outcome `ok`, the only rejection
outcome being `invalidUsers`, which is not produced). -/
theorem addExpense_empty_accepted :
    twoMemberGroup.addExpense "Bad" 100 "a" [] SplitType.EQUAL []
        = some (.ok, twoMemberGroup)
      ∧ ExpenseResult.ok ≠ ExpenseResult.invalidUsers :=
  ⟨rfl, by decide⟩

/-- C8: an accepted settlement between two distinct members applies exactly
`bal[fromUserId][toUserId] += amount` and `bal[toUserId][fromUserId] -= amount`
and changes nothing else. -/
theorem settlePayment_effect (g : Group) (f t : String) (amount : ℚ)
    (hf : g.isMember f) (ht : g.isMember t) (hne : f ≠ t) :
    (g.settlePayment f t amount).1 = .ok ∧
      (g.settlePayment f t amount).2.bal f t = g.bal f t + amount ∧
      (g.settlePayment f t amount).2.bal t f = g.bal t f - amount ∧
      (∀ a b, ¬(a = f ∧ b = t) → ¬(a = t ∧ b = f) →
        (g.settlePayment f t amount).2.bal a b = g.bal a b) ∧
      (g.settlePayment f t amount).2.members = g.members ∧
      (g.settlePayment f t amount).2.rows = g.rows := by
  have hm : g.isMember f ∧ g.isMember t := ⟨hf, ht⟩
  refine ⟨?_, ?_, ?_, ?_, settle_members g f t amount, settle_rows g f t amount⟩
  · simp [Group.settlePayment, hm]
  · rw [settle_bal g f t amount f t hm, if_pos ⟨rfl, rfl⟩,
      if_neg (fun hc => hne hc.1)]
    ring
  · rw [settle_bal g f t amount t f hm, if_neg (fun hc => hne hc.1.symm),
      if_pos ⟨rfl, rfl⟩]
    ring
  · intro a b hab1 hab2
    rw [settle_bal g f t amount a b hm, if_neg hab1, if_neg hab2]
    ring

theorem settlePayment_effect_witness :
    (twoMemberGroup.settlePayment "a" "b" 200).1 = SettleResult.ok ∧
      (twoMemberGroup.settlePayment "a" "b" 200).2.bal "a" "b"
        = twoMemberGroup.bal "a" "b" + 200 :=
  ⟨(settlePayment_effect twoMemberGroup "a" "b" 200 (by decide) (by decide) (by decide)).1,
    (settlePayment_effect twoMemberGroup "a" "b" 200 (by decide) (by decide) (by decide)).2.1⟩

/-- C9 (amended): the balance listing shows exactly the entries whose stored
value is nonzero: the filter in `showBalances` is `balance > 0` or
`balance < 0`, not the 0.01 epsilon the spec describes. -/
theorem entryShown_iff_ne_zero (g : Group) (userId otherId : String) :
    g.entryShown userId otherId = true ↔ g.bal userId otherId ≠ 0 := by
  unfold Group.entryShown
  split_ifs with h1 h2
  · simpa using h1.ne'
  · simpa using h2.ne
  · have h0 : g.bal userId otherId = 0 := le_antisymm (not_lt.mp h1) (not_lt.mp h2)
    simp [h0]

/-- C9 (counterexample): an entry of absolute value 1/200 < 0.01 is displayed
by `showBalances`, contradicting the claimed epsilon filtering. -/
theorem entryShown_small_entry :
    (twoMemberGroup.settlePayment "a" "b" (1 / 200)).2.entryShown "a" "b" = true ∧
      |(twoMemberGroup.settlePayment "a" "b" (1 / 200)).2.bal "a" "b"| < 1 / 100 := by
  have hm : twoMemberGroup.isMember "a" ∧ twoMemberGroup.isMember "b" :=
    ⟨by decide, by decide⟩
  have h0 : twoMemberGroup.bal "a" "b" = 0 := by
    simp [twoMemberGroup, Group.addMember, Group.init]
  have hb : (twoMemberGroup.settlePayment "a" "b" (1 / 200)).2.bal "a" "b" = 1 / 200 := by
    rw [settle_bal twoMemberGroup "a" "b" (1 / 200) "a" "b" hm, if_pos ⟨rfl, rfl⟩,
      if_neg (fun hc => (by decide : ("a" : String) ≠ "b") hc.1), h0]
    norm_num
  refine ⟨?_, by rw [hb, abs_of_pos] <;> norm_num⟩
  unfold Group.entryShown
  rw [if_pos (by rw [hb]; norm_num)]

/-- C10: with policy EXACT or PERCENTAGE and the membership check passed, the
code reads `values[i]` for every `i < users.size()` with no length check; the
out-of-range branch (modelled by `none`) is avoided exactly when `values` has
at least as many entries as `users`. -/
theorem addExpense_values_in_bounds_iff (g : Group) (desc : String) (amount : ℚ)
    (paidBy : String) (users : List String) (type : SplitType) (values : List ℚ)
    (htype : type = SplitType.EXACT ∨ type = SplitType.PERCENTAGE)
    (hp : g.isMember paidBy) (hall : g.allMembersExist users) :
    ((g.addExpense desc amount paidBy users type values).isSome = true ↔
      users.length ≤ values.length) := by
  unfold Group.addExpense
  rw [if_neg (not_not_intro ⟨hp, hall⟩)]
  rcases htype with rfl | rfl
  · simp only [computeSplits]
    cases hr : exactSplits users values with
    | none =>
        have hlen := exactSplits_isSome users values
        rw [hr] at hlen
        simp at hlen
        simpa using hlen
    | some ss =>
        have hlen := exactSplits_isSome users values
        rw [hr] at hlen
        simp at hlen
        simpa using hlen
  · simp only [computeSplits]
    cases hr : percentageSplits amount users values with
    | none =>
        have hlen := percentageSplits_isSome amount users values
        rw [hr] at hlen
        simp at hlen
        simpa using hlen
    | some ss =>
        have hlen := percentageSplits_isSome amount users values
        rw [hr] at hlen
        simp at hlen
        simpa using hlen

theorem addExpense_values_in_bounds_iff_witness :
    (SplitType.EXACT = SplitType.EXACT ∨ SplitType.EXACT = SplitType.PERCENTAGE) ∧
      twoMemberGroup.isMember "a" ∧ twoMemberGroup.allMembersExist ["a", "b"] ∧
      ((twoMemberGroup.addExpense "Bad" 100 "a" ["a", "b"] SplitType.EXACT
          [40]).isSome = true ↔
        (["a", "b"] : List String).length ≤ ([(40 : ℚ)] : List ℚ).length) :=
  ⟨Or.inl rfl, by decide, by decide,
    addExpense_values_in_bounds_iff twoMemberGroup "Bad" 100 "a" ["a", "b"]
      SplitType.EXACT [40] (Or.inl rfl) (by decide) (by decide)⟩

/-- C2 (amended): `addExpense` with policy EXACT performs no validation of the
parameter list at all: whenever the membership check passes and `values` has at
least as many entries as `users`, the expense is accepted with outcome `ok`
regardless of the sum of `values` (extra entries are ignored); when `values` is
shorter, the `values[i]` read runs out of range (the `none` branch) instead of
rejecting. -/
theorem addExpense_exact_unvalidated (g : Group) (desc : String) (amount : ℚ)
    (paidBy : String) (users : List String) (values : List ℚ)
    (hp : g.isMember paidBy) (hall : g.allMembersExist users) :
    (users.length ≤ values.length →
        ∃ g', g.addExpense desc amount paidBy users SplitType.EXACT values
          = some (.ok, g'))
      ∧ (values.length < users.length →
        g.addExpense desc amount paidBy users SplitType.EXACT values = none) := by
  unfold Group.addExpense
  rw [if_neg (not_not_intro ⟨hp, hall⟩)]
  simp only [computeSplits]
  constructor
  · intro hlen
    have hsome := (exactSplits_isSome users values).mpr hlen
    cases hr : exactSplits users values with
    | none =>
        rw [hr] at hsome
        simp at hsome
    | some ss =>
        exact ⟨applySplits g paidBy ss, rfl⟩
  · intro hlen
    have hnone : ¬(exactSplits users values).isSome = true := by
      rw [exactSplits_isSome]
      omega
    cases hr : exactSplits users values with
    | none => rfl
    | some ss =>
        rw [hr] at hnone
        simp at hnone

theorem addExpense_exact_unvalidated_witness :
    twoMemberGroup.isMember "a" ∧ twoMemberGroup.allMembersExist ["a", "b"] ∧
      ((["a", "b"] : List String).length ≤ ([(40 : ℚ), 50] : List ℚ).length →
        ∃ g', twoMemberGroup.addExpense "Bad" 100 "a" ["a", "b"] SplitType.EXACT [40, 50]
          = some (.ok, g')) ∧
      (([(40 : ℚ), 50] : List ℚ).length < (["a", "b"] : List String).length →
        twoMemberGroup.addExpense "Bad" 100 "a" ["a", "b"] SplitType.EXACT [40, 50] = none) :=
  ⟨by decide, by decide,
    addExpense_exact_unvalidated twoMemberGroup "Bad" 100 "a" ["a", "b"] [40, 50]
      (by decide) (by decide)⟩

/-- C2 (counterexample): the spec's own instance `addExpense("Bad", 100, a,
[a,b], EXACT, [40, 50])` (sum 90 ≠ 100) is accepted with outcome `ok` and the
matrix changes from 0 to 50, instead of being rejected with the matrix
unchanged. -/
theorem exact_sum_mismatch_accepted :
    twoMemberGroup.bal "a" "b" = 0 ∧
      (twoMemberGroup.addExpense "Bad" 100 "a" ["a", "b"] SplitType.EXACT [40, 50]).map
          (fun r => (r.1, r.2.bal "a" "b")) = some (ExpenseResult.ok, 50) := by
  have h0 : twoMemberGroup.bal "a" "b" = 0 := by
    simp [twoMemberGroup, Group.addMember, Group.init]
  have hbal : (applySplits twoMemberGroup "a" [⟨"a", (40 : ℚ)⟩, ⟨"b", (50 : ℚ)⟩]).bal "a" "b"
      = 50 := by
    rw [applySplits_bal, h0]
    simp [splitDelta]
  have hexp : twoMemberGroup.addExpense "Bad" 100 "a" ["a", "b"] SplitType.EXACT [40, 50]
      = some (.ok, applySplits twoMemberGroup "a" [⟨"a", (40 : ℚ)⟩, ⟨"b", (50 : ℚ)⟩]) := rfl
  refine ⟨h0, ?_⟩
  rw [hexp]
  simp [hbal]

/-- C6 (amended): `settlePayment` validates only membership: zero or negative
amounts are not rejected; the settlement is applied as-is, with outcome `ok`
and the usual two matrix updates. -/
theorem settle_nonpositive_applied (g : Group) (f t : String) (amount : ℚ)
    (hf : g.isMember f) (ht : g.isMember t) (hne : f ≠ t) (hamt : amount ≤ 0) :
    (g.settlePayment f t amount).1 = .ok ∧
      (g.settlePayment f t amount).2.bal f t = g.bal f t + amount ∧
      (g.settlePayment f t amount).2.bal t f = g.bal t f - amount := by
  have hm : g.isMember f ∧ g.isMember t := ⟨hf, ht⟩
  refine ⟨by simp [Group.settlePayment, hm], ?_, ?_⟩
  · rw [settle_bal g f t amount f t hm, if_pos ⟨rfl, rfl⟩, if_neg (fun hc => hne hc.1)]
    ring
  · rw [settle_bal g f t amount t f hm, if_neg (fun hc => hne hc.1.symm),
      if_pos ⟨rfl, rfl⟩]
    ring

theorem settle_nonpositive_applied_witness :
    twoMemberGroup.isMember "a" ∧ twoMemberGroup.isMember "b" ∧ ("a" : String) ≠ "b" ∧
      (-5 : ℚ) ≤ 0 ∧
      ((twoMemberGroup.settlePayment "a" "b" (-5)).1 = .ok ∧
        (twoMemberGroup.settlePayment "a" "b" (-5)).2.bal "a" "b"
          = twoMemberGroup.bal "a" "b" + (-5) ∧
        (twoMemberGroup.settlePayment "a" "b" (-5)).2.bal "b" "a"
          = twoMemberGroup.bal "b" "a" - (-5)) :=
  ⟨by decide, by decide, by decide, by norm_num,
    settle_nonpositive_applied twoMemberGroup "a" "b" (-5) (by decide) (by decide)
      (by decide) (by norm_num)⟩

/-- C6 (counterexample): `settlePayment(a, b, -5)` is accepted (`ok`) and
changes `bal[a][b]` from 0 to -5, instead of being rejected with both
endpoints' balances unchanged. -/
theorem settle_negative_accepted :
    (twoMemberGroup.settlePayment "a" "b" (-5)).1 = SettleResult.ok ∧
      twoMemberGroup.bal "a" "b" = 0 ∧
      (twoMemberGroup.settlePayment "a" "b" (-5)).2.bal "a" "b" = -5 := by
  have hm : twoMemberGroup.isMember "a" ∧ twoMemberGroup.isMember "b" :=
    ⟨by decide, by decide⟩
  have h0 : twoMemberGroup.bal "a" "b" = 0 := by
    simp [twoMemberGroup, Group.addMember, Group.init]
  refine ⟨by simp [Group.settlePayment, hm], h0, ?_⟩
  rw [settle_bal twoMemberGroup "a" "b" (-5) "a" "b" hm, if_pos ⟨rfl, rfl⟩,
    if_neg (fun hc => (by decide : ("a" : String) ≠ "b") hc.1), h0]
  ring

/-- C7 (amended): an accepted EQUAL expense changes each pair involving the
payer by the per-head share `amount / users.length` times the participant's
multiplicity in the list (so exactly `T/n` for duplicate-free lists, as in the
Lunch scenario); the payer's own occurrences are skipped, and pairs not
involving the payer are untouched. -/
theorem addExpense_equal_split_effect (g : Group) (desc : String) (amount : ℚ)
    (paidBy : String) (users : List String) (values : List ℚ)
    (hp : g.isMember paidBy) (hall : g.allMembersExist users) :
    ∃ g', g.addExpense desc amount paidBy users SplitType.EQUAL values = some (.ok, g') ∧
      (∀ q, q ≠ paidBy →
        g'.bal paidBy q
            = g.bal paidBy q + (users.count q : ℚ) * (amount / (users.length : ℚ)) ∧
          g'.bal q paidBy
            = g.bal q paidBy - (users.count q : ℚ) * (amount / (users.length : ℚ))) ∧
      (∀ a b, a ≠ paidBy → b ≠ paidBy → g'.bal a b = g.bal a b) := by
  refine ⟨applySplits g paidBy
      (users.map (fun u => ⟨u, amount / (users.length : ℚ)⟩)), ?_, ?_, ?_⟩
  · unfold Group.addExpense
    rw [if_neg (not_not_intro ⟨hp, hall⟩)]
    rfl
  · intro q hq
    constructor
    · rw [applySplits_bal, splitDelta_equal_row paidBy q _ hq users]
    · rw [applySplits_bal]
      have h1 := splitDelta_antisymm paidBy paidBy q
        (users.map (fun u => ⟨u, amount / (users.length : ℚ)⟩))
      have h2 := splitDelta_equal_row paidBy q (amount / (users.length : ℚ)) hq users
      linarith
  · intro a b ha hb
    rw [applySplits_bal, splitDelta_not_payer paidBy a b ha hb]
    ring

theorem addExpense_equal_split_effect_witness :
    hostelGroup.isMember "u1" ∧
      hostelGroup.allMembersExist ["u1", "u2", "u3", "u4"] ∧
      (∃ g', hostelGroup.addExpense "Lunch" 800 "u1" ["u1", "u2", "u3", "u4"]
          SplitType.EQUAL [] = some (.ok, g') ∧
        (∀ q, q ≠ "u1" →
          g'.bal "u1" q = hostelGroup.bal "u1" q
              + ((["u1", "u2", "u3", "u4"] : List String).count q : ℚ)
                * (800 / ((["u1", "u2", "u3", "u4"] : List String).length : ℚ)) ∧
            g'.bal q "u1" = hostelGroup.bal q "u1"
              - ((["u1", "u2", "u3", "u4"] : List String).count q : ℚ)
                * (800 / ((["u1", "u2", "u3", "u4"] : List String).length : ℚ))) ∧
        (∀ a b, a ≠ "u1" → b ≠ "u1" → g'.bal a b = hostelGroup.bal a b)) :=
  ⟨by decide, by decide,
    addExpense_equal_split_effect hostelGroup "Lunch" 800 "u1" ["u1", "u2", "u3", "u4"]
      [] (by decide) (by decide)⟩

/-- The state produced by the duplicate-participant EQUAL expense below. -/
def dupExpenseGroup : Group :=
  applySplits twoMemberGroup "a"
    ((["b", "b"] : List String).map
      (fun u => ⟨u, 100 / (((["b", "b"] : List String).length : ℕ) : ℚ)⟩))

/-- C7 (counterexample): with the duplicate participant list [b, b] (accepted
by the code, which never checks for repeats), the EQUAL expense of 100 raises
`bal[a][b]` by 100, not by the claimed per-participant `T/n = 50`. -/
theorem equal_split_duplicate_counterexample :
    twoMemberGroup.addExpense "Dup" 100 "a" ["b", "b"] SplitType.EQUAL []
        = some (.ok, dupExpenseGroup) ∧
      dupExpenseGroup.bal "a" "b" = 100 ∧
      (100 : ℚ) ≠ 100 / ((["b", "b"] : List String).length : ℚ) := by
  have h0 : twoMemberGroup.bal "a" "b" = 0 := by
    simp [twoMemberGroup, Group.addMember, Group.init]
  refine ⟨rfl, ?_, by norm_num⟩
  unfold dupExpenseGroup
  rw [applySplits_bal, h0]
  simp [splitDelta]

/-- C3 (amended): `addMember` applied twice yields the same row set and the
same balance matrix as applying it once, but appends the member to the
`members` vector a second time; and `addMember` always resets the added
member's balance row to zero (so adding an existing member is not a no-op: it
duplicates the vector entry and clears that member's row). -/
theorem addMember_twice_effect (g : Group) (u : String) :
    ((g.addMember u).addMember u).rows = (g.addMember u).rows ∧
      (∀ x y, ((g.addMember u).addMember u).bal x y = (g.addMember u).bal x y) ∧
      ((g.addMember u).addMember u).members = (g.addMember u).members ++ [u] ∧
      (∀ x, (g.addMember u).bal u x = 0) := by
  refine ⟨?_, ?_, rfl, ?_⟩
  · show (if u ∈ (g.addMember u).rows then (g.addMember u).rows
        else (g.addMember u).rows ++ [u]) = (g.addMember u).rows
    rw [if_pos (addMember_mem_rows g u)]
  · intro x y
    show (if x = u then 0 else (g.addMember u).bal x y) = (g.addMember u).bal x y
    by_cases hx : x = u
    · rw [if_pos hx]
      show (0 : ℚ) = if x = u then 0 else g.bal x y
      rw [if_pos hx]
    · rw [if_neg hx]
  · intro x
    show (if u = u then 0 else g.bal u x) = 0
    rw [if_pos rfl]

/-- C3 (counterexample): `addMember` twice gives a different state than once
(the `members` vector gains a duplicate), and adding an already-existing
member clears that member's balance row: after a settlement has made
`bal[a][b] = 5`, re-adding a resets it to 0. -/
theorem addMember_not_idempotent :
    ¬(∀ (g : Group) (x : String), (g.addMember x).addMember x = g.addMember x) ∧
      (twoMemberGroup.settlePayment "a" "b" 5).2.bal "a" "b" = 5 ∧
      ((twoMemberGroup.settlePayment "a" "b" 5).2.addMember "a").bal "a" "b" = 0 := by
  have hm : twoMemberGroup.isMember "a" ∧ twoMemberGroup.isMember "b" :=
    ⟨by decide, by decide⟩
  have h0 : twoMemberGroup.bal "a" "b" = 0 := by
    simp [twoMemberGroup, Group.addMember, Group.init]
  refine ⟨?_, ?_, ?_⟩
  · intro h
    have hmem := congrArg Group.members (h Group.init "u")
    simp [Group.addMember, Group.init] at hmem
  · rw [settle_bal twoMemberGroup "a" "b" 5 "a" "b" hm, if_pos ⟨rfl, rfl⟩,
      if_neg (fun hc => (by decide : ("a" : String) ≠ "b") hc.1), h0]
    ring
  · show (if "a" = "a" then (0 : ℚ)
        else (twoMemberGroup.settlePayment "a" "b" 5).2.bal "a" "b") = 0
    rw [if_pos rfl]

/-- C1 (amended): for every group reachable by public operations in which
`addMember` is only ever applied to ids that are not yet members, antisymmetry
holds: mirrored cells sum to zero exactly, hence within the 0.01 tolerance. -/
theorem antisymmetry_of_runOpsFresh (ops : List Op) (g : Group) (A B : String)
    (h : runOpsFresh Group.init ops = some g) (hAB : A ≠ B) :
    |g.bal A B + g.bal B A| ≤ 1 / 100 := by
  have hInv : Inv g := runOpsFresh_inv ops Group.init g inv_init h
  rw [hInv.1 A B]
  norm_num

theorem antisymmetry_of_runOpsFresh_witness :
    runOpsFresh Group.init [Op.addMember "a", Op.addMember "b", Op.settle "a" "b" 5]
        = some (twoMemberGroup.settlePayment "a" "b" 5).2 ∧
      ("a" : String) ≠ "b" ∧
      |(twoMemberGroup.settlePayment "a" "b" 5).2.bal "a" "b"
          + (twoMemberGroup.settlePayment "a" "b" 5).2.bal "b" "a"| ≤ 1 / 100 :=
  ⟨rfl, by decide,
    antisymmetry_of_runOpsFresh [Op.addMember "a", Op.addMember "b", Op.settle "a" "b" 5]
      (twoMemberGroup.settlePayment "a" "b" 5).2 "a" "b" rfl (by decide)⟩

/-- The operation sequence breaking antisymmetry: build two members, record an
EQUAL expense of 400, then re-add the payer (which clears the payer's row). -/
def c1BadOps : List Op :=
  [Op.addMember "a", Op.addMember "b",
    Op.addExpense "L" 400 "a" ["a", "b"] SplitType.EQUAL [], Op.addMember "a"]

/-- The state `c1BadOps` reaches. -/
def c1BadGroup : Group :=
  (applySplits twoMemberGroup "a"
    ((["a", "b"] : List String).map
      (fun u => ⟨u, 400 / (((["a", "b"] : List String).length : ℕ) : ℚ)⟩))).addMember "a"

/-- C1 (counterexample): antisymmetry does not hold for every reachable group:
re-adding the existing member a clears a's row while leaving `bal[b][a] =
-200`, so `bal[a][b] + bal[b][a] = -200`, far outside the 0.01 tolerance. -/
theorem antisymmetry_reachable_counterexample :
    ¬(∀ g : Group, Reachable g → ∀ A B : String, A ≠ B →
        |g.bal A B + g.bal B A| ≤ 1 / 100) := by
  intro hclaim
  have hs : (runOps Group.init c1BadOps).isSome = true := rfl
  have hle := hclaim ((runOps Group.init c1BadOps).get hs)
    ⟨c1BadOps, (Option.some_get hs).symm⟩ "a" "b" (by decide)
  have hgEq : (runOps Group.init c1BadOps).get hs = c1BadGroup := rfl
  rw [hgEq] at hle
  have hb1 : c1BadGroup.bal "a" "b" = 0 := by
    simp [c1BadGroup, Group.addMember]
  have hb2 : c1BadGroup.bal "b" "a" = -200 := by
    show (if "b" = "a" then (0 : ℚ)
        else (applySplits twoMemberGroup "a"
          ((["a", "b"] : List String).map
            (fun u => ⟨u, 400 / (((["a", "b"] : List String).length : ℕ) : ℚ)⟩))).bal "b" "a")
      = -200
    rw [if_neg (by decide : ¬("b" : String) = "a"), applySplits_bal,
      show twoMemberGroup.bal "b" "a" = 0 from by
        simp [twoMemberGroup, Group.addMember, Group.init]]
    simp [splitDelta]
    norm_num
  rw [hb1, hb2] at hle
  norm_num at hle

end Splitwise
